import Mathlib

/-!
Shallow embedding of the kanidm backend storage engine, translated from
`src/kanidmd/src/lib/be/mod.rs` and `src/kanidmd/src/lib/be/idl_sqlite.rs`.

Modelling conventions:
* `IDLBitRange` (a compact set of u64 entry ids) is modelled as `Finset Nat`.
* A SQLite index table `idx_<kind>_<attr> (key TEXT PRIMARY KEY, idl BLOB)`
  is modelled as `String → Option IdSet`: `none` means the row is absent.
  A row's blob is modelled as the decoded id set (the CBOR codec is an
  external collaborator with `decode (encode s) = s`; codec failures are
  outside this model, which follows the success path of the store).
* Table existence is explicit: `Store.tables attr kind = none` means the
  table `idx_<kind>_<attr>` does not exist.
* The entry table `id2entry` is modelled as an association list of rows.
* Rust `Result` becomes `Except OperationError`; an operation that can also
  crash on an `assert!` returns `BEResult`, which adds a `panic` outcome.
-/

namespace KanidmBE

/-- Index kinds, from `crate::value::IndexType` (declared outside `src/`;
used throughout the backend): `EQUALITY`, `PRESENCE`, `SUBSTRING`. -/
inductive IndexType where
  | EQUALITY
  | PRESENCE
  | SUBSTRING
deriving DecidableEq, Repr

/-- An `IDLBitRange`: a set of entry ids. -/
abbrev IdSet := Finset Nat

/-- The resolver result type `IDL` of `be/mod.rs` (lines 30-34). -/
inductive IDL where
  | ALLIDS
  | Partial (s : IdSet)
  | Indexed (s : IdSet)
deriving DecidableEq

/-- The error taxonomy `kanidm_proto::v1::OperationError`, restricted to the
variants the backend raises.  `ConsistencyError` carries the list returned by
`verify` (whose element type is irrelevant here and modelled as `Unit`). -/
inductive OperationError where
  | EmptyRequest
  | InvalidEntryID
  | InvalidEntryState
  | CorruptedEntry (id : Nat)
  | SerdeCborError
  | SerdeJsonError
  | FsError
  | InvalidState
  | SQLiteError
  | BackendEngine
  | ConsistencyError (l : List Unit)
deriving DecidableEq, Repr

/-- One index table `idx_<kind>_<attr>`: maps a key to its row's id set,
`none` when the row is absent. -/
abbrev IdxTable := String → Option IdSet

/-- The indexed keys an entry contributes, per attribute and index kind
(derived by the schema layer: `eq_key`/`sub_key` canonicalisation and the
constant `"_"` for presence; that layer is outside `src/`, so an entry is
modelled directly by its key sets). -/
abbrev EntryData := String → IndexType → Finset String

/-- A committed entry: its stable id and its indexable content. -/
structure Entry where
  id : Nat
  content : EntryData

/-- The index metadata of a write transaction: the declared
`(attr, index kind)` pairs (a `BTreeSet` in the source; modelled as the
list of its elements). -/
abbrev IdxMeta := List (String × IndexType)

/-- The SQLite database state seen by the backend: the entry table
`id2entry`, the family of index tables, and the `db_version` table. -/
structure Store where
  id2entry : List (Nat × EntryData)
  tables : String → IndexType → Option IdxTable
  db_version : String → Option Int

/-- `IdlSqliteTransaction::exists_idx` (idl_sqlite.rs lines 108-134): does the
table `idx_<kind>_<attr>` exist in `sqlite_master`. -/
def exists_idx (st : Store) (attr : String) (itype : IndexType) : Bool :=
  (st.tables attr itype).isSome

/-- `IdlSqliteTransaction::get_idl` (idl_sqlite.rs lines 136-179).  When the
table is missing, `Ok(None)`.  Otherwise `SELECT idl ... WHERE key = :idx_key`
`.optional()`: a present row decodes to its id set, an absent row yields
`IDLBitRange::new()`; either way the result is `Ok(Some idl)`. -/
def get_idl (st : Store) (attr : String) (itype : IndexType) (idx_key : String) :
    Option IdSet :=
  if exists_idx st attr itype = false then
    none
  else
    let idl_raw : Option IdSet := (st.tables attr itype).bind fun t => t idx_key
    some (match idl_raw with
      | some d => d
      | none => (∅ : IdSet))

/-- Replace one index table (the effect of a SQL statement against
`idx_<kind>_<attr>`). -/
def Store.setTable (st : Store) (attr : String) (itype : IndexType)
    (t : Option IdxTable) : Store :=
  { st with tables := fun a i => if a = attr ∧ i = itype then t else st.tables a i }

/-- `IdlSqliteWriteTransaction::write_idl` (idl_sqlite.rs lines 362-412): an
empty id set DELETEs the row for the key; a non-empty set INSERT OR REPLACEs
it.  Either SQL statement fails with `SQLiteError` when the table does not
exist. -/
def write_idl (st : Store) (attr : String) (itype : IndexType) (idx_key : String)
    (idl : IdSet) : Except OperationError Store :=
  match st.tables attr itype with
  | none => .error .SQLiteError
  | some t =>
    if idl.card = 0 then
      .ok (st.setTable attr itype (some fun k => if k = idx_key then none else t k))
    else
      .ok (st.setTable attr itype (some fun k => if k = idx_key then some idl else t k))

/-- `IdlSqliteWriteTransaction::create_idx` (idl_sqlite.rs lines 440-464):
`CREATE TABLE IF NOT EXISTS idx_<kind>_<attr>` — a no-op when the table
exists, otherwise a fresh empty table. -/
def create_idx (st : Store) (attr : String) (itype : IndexType) : Store :=
  match st.tables attr itype with
  | some _ => st
  | none => st.setTable attr itype (some fun _ => none)

/-- `IdlSqliteWriteTransaction::purge_idxs` (idl_sqlite.rs lines 493-506):
`list_idxs` then `DROP TABLE` each — every index table is dropped.
(The bootstrap tables `idx_name2uuid`/`idx_uuid2name` are outside this
model.) -/
def purge_idxs (st : Store) : Store :=
  { st with tables := fun _ _ => none }

/-- `IdlSqliteWriteTransaction::write_identries` (idl_sqlite.rs lines
321-345): `INSERT OR REPLACE INTO id2entry` for each serialised entry. -/
def upsertRow (rows : List (Nat × EntryData)) (r : Nat × EntryData) :
    List (Nat × EntryData) :=
  if rows.any (fun q => q.1 = r.1) then
    rows.map (fun q => if q.1 = r.1 then r else q)
  else
    rows ++ [r]

def write_identries (st : Store) (entries : List (Nat × EntryData)) : Store :=
  { st with id2entry := entries.foldl upsertRow st.id2entry }

/-- `IdlSqliteWriteTransaction::delete_identry` (idl_sqlite.rs lines 347-360):
`DELETE FROM id2entry WHERE id = :id` for each id.  An id with no row
matches zero rows and the statement still succeeds. -/
def delete_identry (st : Store) (idl : List Nat) : Store :=
  { st with id2entry := st.id2entry.filter (fun r => !idl.contains r.1) }

/-- `IdlSqliteWriteTransaction::purge_id2entry` (idl_sqlite.rs lines
508-516): `DELETE FROM id2entry`. -/
def purge_id2entry (st : Store) : Store :=
  { st with id2entry := [] }

/-- `get_db_version_key` (idl_sqlite.rs lines 537-549): a missing row
defaults to 0. -/
def get_db_version_key (st : Store) (key : String) : Int :=
  (st.db_version key).getD 0

/-- `set_db_version_key` (idl_sqlite.rs lines 551-558): INSERT OR REPLACE. -/
def set_db_version_key (st : Store) (key : String) (v : Int) : Store :=
  { st with db_version := fun k => if k = key then some v else st.db_version k }

/-- `get_db_index_version`: the `"indexv"` key of `db_version`. -/
def get_db_index_version (st : Store) : Int :=
  get_db_version_key st "indexv"

/-- `set_db_index_version`. -/
def set_db_index_version (st : Store) (v : Int) : Store :=
  set_db_version_key st "indexv" v

/-- Outcome of a backend write operation: a Rust `Result`, or the crash of a
failed `assert!`. -/
inductive BEResult (α : Type) where
  | panic
  | err (e : OperationError)
  | ok (a : α)

/-- Fold an effectful step over a list, stopping at the first panic or error
(`try_for_each` in the source). -/
def beFold (f : Store → α → BEResult Store) : Store → List α → BEResult Store
  | st, [] => .ok st
  | st, a :: rest =>
    match f st a with
    | .panic => .panic
    | .err e => .err e
    | .ok st' => beFold f st' rest

/-- One index edit produced by `Entry::idx_diff` (the schema layer, outside
`src/`): the source encodes an addition as `Ok((attr, itype, key))` and a
removal as `Err((attr, itype, key))`. -/
inductive IdxEdit where
  | add (attr : String) (itype : IndexType) (key : String)
  | remove (attr : String) (itype : IndexType) (key : String)
deriving DecidableEq, Repr

/-- The `Entry::idx_diff` collaborator: from the index metadata and the
(pre, post) pair it derives the edit list.  It lives in the entry layer,
outside `src/`, so the backend model is parameterised over it. -/
abbrev IdxDiff := IdxMeta → Option Entry → Option Entry → List IdxEdit

/-- One iteration of the `idx_diff.iter().try_for_each` body of
`BackendWriteTransaction::entry_index` (mod.rs lines 650-688): load the
current id set for `(attr, itype, key)`; insert or remove the entry id and
write the set back; when `get_idl` reports the table missing, log the
"YOU MUST REINDEX" warning and return `Ok(())`. -/
def apply_idx_edit (st : Store) (e_id : Nat) : IdxEdit → Except OperationError Store
  | .add attr itype idx_key =>
    match get_idl st attr itype idx_key with
    | some idl => write_idl st attr itype idx_key (insert e_id idl)
    | none => .ok st
  | .remove attr itype idx_key =>
    match get_idl st attr itype idx_key with
    | some idl => write_idl st attr itype idx_key (idl.erase e_id)
    | none => .ok st

/-- `try_for_each` over the edit list. -/
def applyEdits (st : Store) (e_id : Nat) : List IdxEdit → Except OperationError Store
  | [] => .ok st
  | ed :: rest =>
    match apply_idx_edit st e_id ed with
    | .error e => .error e
    | .ok st' => applyEdits st' e_id rest

/-- Lift a `Result` into a `BEResult`. -/
def liftE : Except OperationError Store → BEResult Store
  | .error e => .err e
  | .ok st => .ok st

/-- `BackendWriteTransaction::entry_index` (mod.rs lines 622-690).
`(None, None)` is `InvalidState`; `(Some, Some)` runs
`assert!(pre.get_id() == post.get_id())` (a crash, not an error) and uses the
post id.  The edit list comes from `Entry::idx_diff` and each edit is
applied by `apply_idx_edit`. -/
def entry_index (idxDiff : IdxDiff) (idxmeta : IdxMeta) (st : Store)
    (pre post : Option Entry) : BEResult Store :=
  match pre, post with
  | none, none => .err .InvalidState
  | some p, none => liftE (applyEdits st p.id (idxDiff idxmeta (some p) none))
  | none, some q => liftE (applyEdits st q.id (idxDiff idxmeta none (some q)))
  | some p, some q =>
    if p.id = q.id then
      liftE (applyEdits st q.id (idxDiff idxmeta (some p) (some q)))
    else
      .panic

/-- The id bound imposed by the `i64` column type: `i64::try_from(u64)`
succeeds exactly below `2^63`. -/
def i64Max : Nat := 2 ^ 63

/-- The serialisation loop of `BackendWriteTransaction::modify` (mod.rs
lines 524-543): each post entry must have an id representable as `i64` and
non-zero, else `InvalidEntryID`; serialisation itself is the external CBOR
codec and is modelled as the identity on content. -/
def ser_entries : List Entry → Except OperationError (List (Nat × EntryData))
  | [] => .ok []
  | e :: rest =>
    if e.id < i64Max then
      if e.id = 0 then
        .error .InvalidEntryID
      else
        match ser_entries rest with
        | .error er => .error er
        | .ok done => .ok ((e.id, e.content) :: done)
    else
      .error .InvalidEntryID

/-- The id-check loop of `BackendWriteTransaction::delete` (mod.rs lines
582-595): same id conditions, collecting the ids. -/
def id_list : List Entry → Except OperationError (List Nat)
  | [] => .ok []
  | e :: rest =>
    if e.id < i64Max then
      if e.id = 0 then
        .error .InvalidEntryID
      else
        match id_list rest with
        | .error er => .error er
        | .ok done => .ok (e.id :: done)
    else
      .error .InvalidEntryID

/-- `BackendWriteTransaction::modify` (mod.rs lines 506-564).  Empty pre or
post list → `EmptyRequest`; then `assert!(post_entries.len() ==
pre_entries.len())` — a length mismatch between non-empty lists crashes.
After serialisation the source re-compares `post_entries.len()` with
`ser_entries.len()` and would return `InvalidEntryState`, but `map` preserves
length so that branch is unreachable.  Entries are rewritten and the index
maintainer runs over the zipped (pre, post) pairs. -/
def modify (idxDiff : IdxDiff) (idxmeta : IdxMeta) (st : Store)
    (pre_entries post_entries : List Entry) : BEResult Store :=
  if post_entries.isEmpty || pre_entries.isEmpty then
    .err .EmptyRequest
  else if post_entries.length = pre_entries.length then
    match ser_entries post_entries with
    | .error e => .err e
    | .ok sers =>
      if post_entries.length ≠ sers.length then
        .err .InvalidEntryState
      else
        beFold
          (fun s pq => entry_index idxDiff idxmeta s (some pq.1) (some pq.2))
          (write_identries st sers)
          (pre_entries.zip post_entries)
  else
    .panic

/-- `BackendWriteTransaction::delete` (mod.rs lines 566-612).  Empty list →
`EmptyRequest`; ids are checked (`i64` range, non-zero); rows are deleted by
id — ids with no row are silently skipped by SQL; then the maintainer runs
with `(Some e, None)` for each entry. -/
def delete (idxDiff : IdxDiff) (idxmeta : IdxMeta) (st : Store)
    (entries : List Entry) : BEResult Store :=
  if entries.isEmpty then
    .err .EmptyRequest
  else
    match id_list entries with
    | .error e => .err e
    | .ok ids =>
      if entries.length ≠ ids.length then
        .err .InvalidEntryState
      else
        beFold
          (fun s e => entry_index idxDiff idxmeta s (some e) none)
          (delete_identry st ids)
          entries

/-- `BackendWriteTransaction::create_idxs` (mod.rs lines 720-731): create
each table declared in the index metadata, in order (`try_for_each` over the
`BTreeSet`; `create_idx` cannot fail in this model).  It also creates the
bootstrap tables `idx_name2uuid`/`idx_uuid2name`, which are outside this
model. -/
def create_idxs (idxmeta : IdxMeta) (st : Store) : Store :=
  match idxmeta with
  | [] => st
  | p :: rest => create_idxs rest (create_idx st p.1 p.2)

/-- The rows of the entry table read back as entries
(`get_identry(ALLIDS)` followed by `IdEntry::to_entry`; the CBOR decode is
modelled as the identity on content). -/
def entriesOf (st : Store) : List Entry :=
  st.id2entry.map (fun r => ⟨r.1, r.2⟩)

/-- `BackendWriteTransaction::reindex` (mod.rs lines 740-765): purge every
index table, recreate the tables of the index metadata, then walk every
entry of `id2entry` and invoke the maintainer with `(None, Some e)`. -/
def reindex (idxDiff : IdxDiff) (idxmeta : IdxMeta) (st : Store) : BEResult Store :=
  let st1 := create_idxs idxmeta (purge_idxs st)
  beFold (fun s e => entry_index idxDiff idxmeta s none (some e)) st1 (entriesOf st1)

/-- `BackendWriteTransaction::upgrade_reindex` (mod.rs lines 733-738):
reindex only when the stored index version is below `v`, then write `v`. -/
def upgrade_reindex (idxDiff : IdxDiff) (idxmeta : IdxMeta) (st : Store)
    (v : Int) : BEResult Store :=
  if get_db_index_version st < v then
    match reindex idxDiff idxmeta st with
    | .panic => .panic
    | .err e => .err e
    | .ok st' => .ok (set_db_index_version st' v)
  else
    .ok (set_db_index_version st v)

/-- `BackendTransaction::verify` (mod.rs lines 394-396): the body is
`Vec::new()`. -/
def verify (_ : Store) : List Unit :=
  []

/-- `BackendWriteTransaction::restore` (mod.rs lines 783-838), beginning
after the file has been read and parsed (fs and serde_json are external;
`dbentries` is the parsed list).  Purge `id2entry`, renumber the entries
`1..n`, write them, reindex, then check `verify`: a non-empty list becomes
`Err(ConsistencyError(vr))`. -/
def restore (idxDiff : IdxDiff) (idxmeta : IdxMeta) (st : Store)
    (dbentries : List EntryData) : BEResult Store :=
  let identries := dbentries.enum.map (fun p => (p.1 + 1, p.2))
  let st2 := write_identries (purge_id2entry st) identries
  match reindex idxDiff idxmeta st2 with
  | .panic => .panic
  | .err e => .err e
  | .ok st3 =>
    let vr := verify st3
    if vr.length = 0 then .ok st3 else .err (.ConsistencyError vr)

/-- Is a `BEResult` the `ConsistencyError` outcome? -/
def BEResult.isConsistencyErr : BEResult α → Bool
  | .err (.ConsistencyError _) => true
  | _ => false

/-- A resolved filter tree (`crate::filter::FilterResolved`, declared outside
`src/`; its shape is fixed by the match arms of `filter2idl`).  An `Eq`/`Sub`
value is modelled by its derived index key (`get_idx_eq_key`/
`get_idx_sub_key` are the schema layer's canonicalisation). -/
inductive FilterResolved where
  | Eq (attr : String) (value : String) (idx : Bool)
  | Sub (attr : String) (subvalue : String) (idx : Bool)
  | Pres (attr : String) (idx : Bool)
  | Or (l : List FilterResolved)
  | And (l : List FilterResolved)
  | AndNot (f : FilterResolved)

/-- `FilterResolved::is_andnot`: the partition predicate of the `And`
branch. -/
def FilterResolved.is_andnot : FilterResolved → Bool
  | .AndNot _ => true
  | _ => false

theorem sizeOf_filter_le [SizeOf α] (p : α → Bool) (l : List α) :
    sizeOf (l.filter p) ≤ sizeOf l := by
  induction l with
  | nil => simp
  | cons a rest ih =>
    rw [List.filter_cons]
    by_cases h : p a <;> simp [h] <;> omega

theorem sizeOf_dropLast_lt [SizeOf α] (l : List α) (h : l ≠ []) :
    sizeOf l.dropLast < sizeOf l := by
  induction l with
  | nil => exact absurd rfl h
  | cons a rest ih =>
    cases rest with
    | nil => simp
    | cons b rest2 =>
      have hlt := ih (by simp)
      simp only [List.dropLast_cons₂, List.cons.sizeOf_spec] at hlt ⊢
      omega

theorem getLast?_mem (l : List α) (a : α) (h : l.getLast? = some a) : a ∈ l := by
  induction l with
  | nil => simp at h
  | cons x rest ih =>
    cases rest with
    | nil =>
      simp only [List.getLast?_singleton, Option.some.injEq] at h
      simp [h]
    | cons y rest2 =>
      rw [List.getLast?_cons_cons] at h
      exact List.mem_cons_of_mem _ (ih h)

/-- Outcome of the positive-intersection loop of the `And` branch: `early`
when the source loop `return`ed out of `filter2idl` (the threshold
shortcut), `done` with the folded candidate otherwise. -/
inductive AndStep where
  | early (r : IDL)
  | done (cand : IDL)
deriving DecidableEq

mutual

/-- `BackendTransaction::filter2idl` (mod.rs lines 72-292).  The `And`
branch partitions the children by `is_andnot` (`f_andnot` = the filter on
`is_andnot`, `f_rem` = the rest), seeds the candidate by `Vec::pop` — the
*last* element of `f_rem` — applies the threshold shortcut, folds the
remaining positive children (`interGo`) and then the `AndNot` children
(`andnotGo`). -/
def filter2idl (st : Store) (thres : Nat) : FilterResolved → Except OperationError IDL
  | .Eq attr value idx =>
    if idx then
      match get_idl st attr .EQUALITY value with
      | some idl => .ok (.Indexed idl)
      | none => .ok .ALLIDS
    else
      .ok .ALLIDS
  | .Sub attr subvalue idx =>
    if idx then
      match get_idl st attr .SUBSTRING subvalue with
      | some idl => .ok (.Indexed idl)
      | none => .ok .ALLIDS
    else
      .ok .ALLIDS
  | .Pres attr idx =>
    if idx then
      match get_idl st attr .PRESENCE "_" with
      | some idl => .ok (.Indexed idl)
      | none => .ok .ALLIDS
    else
      .ok .ALLIDS
  | .Or l => orGo st thres ∅ false l
  | .And l =>
    match hg : (l.filter (fun x => !x.is_andnot)).getLast? with
    | none => .ok (.Indexed ∅)
    | some g =>
      match filter2idl st thres g with
      | .error e => .error e
      | .ok cand =>
        match cand with
        | .Indexed s | .Partial s =>
          if s.card < thres then
            .ok (.Partial s)
          else
            match interGo st thres cand ((l.filter (fun x => !x.is_andnot)).dropLast) with
            | .error e => .error e
            | .ok (.early r) => .ok r
            | .ok (.done cand2) => andnotGo st thres cand2 (l.filter (fun x => x.is_andnot))
        | .ALLIDS =>
          match interGo st thres cand ((l.filter (fun x => !x.is_andnot)).dropLast) with
          | .error e => .error e
          | .ok (.early r) => .ok r
          | .ok (.done cand2) => andnotGo st thres cand2 (l.filter (fun x => x.is_andnot))
  | .AndNot _ => .ok (.Indexed ∅)
termination_by f => sizeOf f
decreasing_by
  all_goals simp_wf
  all_goals
    first
    | omega
    | (have hmem := List.mem_of_mem_filter (getLast?_mem _ _ hg)
       have hlt := List.sizeOf_lt_of_mem hmem
       try simp only [FilterResolved.And.sizeOf_spec]
       omega)
    | (have hne : (l.filter (fun x => !x.is_andnot)) ≠ [] := by
         intro hnil
         rw [hnil] at hg
         simp at hg
       have h1 := sizeOf_dropLast_lt _ hne
       have h2 := sizeOf_filter_le (fun x => !x.is_andnot) l
       try simp only [FilterResolved.And.sizeOf_spec]
       omega)
    | (have h2 := sizeOf_filter_le (fun x => x.is_andnot) l
       try simp only [FilterResolved.And.sizeOf_spec]
       omega)

/-- The `Or` loop (mod.rs lines 131-162): union each child result into
`result`, record whether any child was `Partial`, short-circuit on
`ALLIDS`. -/
def orGo (st : Store) (thres : Nat) (result : IdSet) (part : Bool) :
    List FilterResolved → Except OperationError IDL
  | [] => .ok (if part then .Partial result else .Indexed result)
  | f :: rest =>
    match filter2idl st thres f with
    | .error e => .error e
    | .ok (.Indexed idl) => orGo st thres (result ∪ idl) part rest
    | .ok (.Partial idl) => orGo st thres (result ∪ idl) true rest
    | .ok .ALLIDS => .ok .ALLIDS
termination_by l => sizeOf l
decreasing_by
  all_goals simp_wf
  all_goals omega

/-- The positive-intersection loop of the `And` branch (mod.rs lines
189-220): intersections below the threshold `return Ok(Partial(r))` out of
`filter2idl` (the `early` outcome); `ALLIDS` on one side passes the other
side through as `Partial`. -/
def interGo (st : Store) (thres : Nat) (cand : IDL) :
    List FilterResolved → Except OperationError AndStep
  | [] => .ok (.done cand)
  | f :: rest =>
    match filter2idl st thres f with
    | .error e => .error e
    | .ok inter =>
      match cand, inter with
      | .Indexed ia, .Indexed ib =>
        if (ia ∩ ib).card < thres then .ok (.early (.Partial (ia ∩ ib)))
        else interGo st thres (.Indexed (ia ∩ ib)) rest
      | .Indexed ia, .Partial ib
      | .Partial ia, .Indexed ib
      | .Partial ia, .Partial ib =>
        if (ia ∩ ib).card < thres then .ok (.early (.Partial (ia ∩ ib)))
        else interGo st thres (.Partial (ia ∩ ib)) rest
      | .Indexed i, .ALLIDS
      | .ALLIDS, .Indexed i
      | .Partial i, .ALLIDS
      | .ALLIDS, .Partial i =>
        interGo st thres (.Partial i) rest
      | .ALLIDS, .ALLIDS => interGo st thres .ALLIDS rest
termination_by l => sizeOf l
decreasing_by
  all_goals simp_wf
  all_goals omega

/-- The `AndNot` subtraction loop of the `And` branch (mod.rs lines
224-270): a non-`AndNot` filter leaked into the partitioned list is
`InvalidState`; otherwise resolve the inner filter and subtract
(`IDLBitRange::andnot`); a subtraction below the threshold returns
`Partial` immediately; `ALLIDS` on either side makes the candidate
`ALLIDS`. -/
def andnotGo (st : Store) (thres : Nat) (cand : IDL) :
    List FilterResolved → Except OperationError IDL
  | [] => .ok cand
  | f :: rest =>
    match f with
    | .AndNot f_in =>
      match filter2idl st thres f_in with
      | .error e => .error e
      | .ok inter =>
        match cand, inter with
        | .Indexed ia, .Indexed ib =>
          if (ia \ ib).card < thres then .ok (.Partial (ia \ ib))
          else andnotGo st thres (.Indexed (ia \ ib)) rest
        | .Indexed ia, .Partial ib
        | .Partial ia, .Indexed ib
        | .Partial ia, .Partial ib =>
          if (ia \ ib).card < thres then .ok (.Partial (ia \ ib))
          else andnotGo st thres (.Partial (ia \ ib)) rest
        | .Indexed _, .ALLIDS
        | .ALLIDS, .Indexed _
        | .Partial _, .ALLIDS
        | .ALLIDS, .Partial _ =>
          andnotGo st thres .ALLIDS rest
        | .ALLIDS, .ALLIDS => andnotGo st thres .ALLIDS rest
    | _ => .error .InvalidState
termination_by l => sizeOf l
decreasing_by
  all_goals simp_wf
  all_goals omega

end

mutual

/-- Modelled from the spec: the entry test `Entry::entry_match_no_index`
(the authoritative in-memory filter predicate, §4.3/§8.5 and the glossary
of the spec) lives in the entry layer, outside `src/`.  A leaf matches when
the entry contributes the queried key for the corresponding index kind
(values are modelled by their canonical keys); `Or` is any-of, `And` is
all-of, `AndNot` is negation. -/
def entryMatch (e : Entry) : FilterResolved → Bool
  | .Eq attr value _ => decide (value ∈ e.content attr .EQUALITY)
  | .Sub attr subvalue _ => decide (subvalue ∈ e.content attr .SUBSTRING)
  | .Pres attr _ => decide ("_" ∈ e.content attr .PRESENCE)
  | .Or l => matchAny e l
  | .And l => matchAll e l
  | .AndNot f => !entryMatch e f

/-- Does the entry match any filter of the list. -/
def matchAny (e : Entry) : List FilterResolved → Bool
  | [] => false
  | f :: rest => entryMatch e f || matchAny e rest

/-- Does the entry match every filter of the list. -/
def matchAll (e : Entry) : List FilterResolved → Bool
  | [] => true
  | f :: rest => entryMatch e f && matchAll e rest

end

/-- The ids of the entries of `E` matching `f`: the set `{e : e matches f}`
of the spec's resolver-soundness invariant. -/
def matchIds (E : List Entry) (f : FilterResolved) : IdSet :=
  ((E.filter (fun e => entryMatch e f)).map Entry.id).toFinset

/-- The ids of the entries of `E` contributing `key` under `(attr, itype)`:
the row contents the index-consistency invariant prescribes. -/
def idsWithKey (E : List Entry) (attr : String) (itype : IndexType)
    (key : String) : IdSet :=
  ((E.filter (fun e => decide (key ∈ e.content attr itype))).map Entry.id).toFinset

/-- The index-consistency invariant of the spec (§3): every row of every
*existing* index table holds exactly the ids of the entries contributing
its key; a missing table is unconstrained (the resolver treats it as
`UNIVERSE`). -/
def indexConsistent (st : Store) (E : List Entry) : Prop :=
  ∀ attr itype t, st.tables attr itype = some t →
    ∀ key, (t key).getD ∅ = idsWithKey E attr itype key

/-- `FILTER_TEST_THRESHOLD` (mod.rs line 27): the threshold `search` and
`exists` pass to `filter2idl`. -/
def FILTER_TEST_THRESHOLD : Nat := 8

/-! ### A concrete store with consistent indexes

Three entries — id 1 `name=william`, id 2 `name=claire`, id 3 `name=bob` —
with the `(name, EQUALITY)` and `(name, PRESENCE)` index tables present and
exactly consistent with the entries. -/

/-- The `idx_eq_name` table of the example store. -/
def tEqName : IdxTable := fun k =>
  if k = "william" then some {1}
  else if k = "claire" then some {2}
  else if k = "bob" then some {3}
  else none

/-- The `idx_pres_name` table of the example store. -/
def tPresName : IdxTable := fun k => if k = "_" then some {1, 2, 3} else none

/-- The content of an entry whose only attribute is `name` with the given
values (equality keys are the values themselves; presence contributes the
constant key `"_"`; no substring index keys are derived in the example). -/
def nameContent (names : List String) : EntryData := fun attr itype =>
  if attr = "name" then
    match itype with
    | .EQUALITY => names.toFinset
    | .PRESENCE => {"_"}
    | .SUBSTRING => ∅
  else ∅

/-- Entry id 1, `name=william`. -/
def entW : Entry := ⟨1, nameContent ["william"]⟩

/-- Entry id 2, `name=claire`. -/
def entC : Entry := ⟨2, nameContent ["claire"]⟩

/-- Entry id 3, `name=bob`. -/
def entB : Entry := ⟨3, nameContent ["bob"]⟩

/-- The example entry list. -/
def exEntries : List Entry := [entW, entC, entB]

/-- The example store: the three entries and the two `name` index tables. -/
def exStore : Store where
  id2entry := [(1, entW.content), (2, entC.content), (3, entB.content)]
  tables := fun attr itype =>
    if attr = "name" then
      match itype with
      | .EQUALITY => some tEqName
      | .PRESENCE => some tPresName
      | .SUBSTRING => none
    else none
  db_version := fun _ => none

theorem evalEqClaire :
    filter2idl exStore 2 (.Eq "name" "claire" true) = .ok (.Indexed {2}) := by
  rw [filter2idl]; rfl

theorem evalEqBob :
    filter2idl exStore 2 (.Eq "name" "bob" true) = .ok (.Indexed {3}) := by
  rw [filter2idl]; rfl

theorem evalPresName :
    filter2idl exStore 2 (.Pres "name" true) = .ok (.Indexed {1, 2, 3}) := by
  rw [filter2idl]; rfl

/-- The inner conjunction `And [Eq(name, claire), Eq(name, bob)]`: its seed
(the popped last child) resolves to `Indexed {3}` of cardinality `1 < 2`, so
the threshold shortcut returns `Partial {3}` — a strict superset of its true
match set `∅` (no entry is named both claire and bob). -/
def gInner : FilterResolved := .And [.Eq "name" "claire" true, .Eq "name" "bob" true]

theorem evalGInner : filter2idl exStore 2 gInner = .ok (.Partial {3}) := by
  rw [show gInner = FilterResolved.And [.Eq "name" "claire" true, .Eq "name" "bob" true]
    from rfl]
  rw [filter2idl]
  split
  · next heq => simp [FilterResolved.is_andnot] at heq
  · next g heq =>
    simp [FilterResolved.is_andnot] at heq
    subst heq
    simp [evalEqClaire, evalEqBob, interGo, andnotGo, FilterResolved.is_andnot]

/-- The failing filter: `And [Pres(name), AndNot(gInner)]`. -/
def exF : FilterResolved := .And [.Pres "name" true, .AndNot gInner]

theorem evalExF : filter2idl exStore 2 exF = .ok (.Partial {1, 2}) := by
  rw [show exF = FilterResolved.And [.Pres "name" true, .AndNot gInner] from rfl]
  rw [filter2idl]
  split
  · next heq => simp [FilterResolved.is_andnot] at heq
  · next g heq =>
    simp [FilterResolved.is_andnot] at heq
    subst heq
    simp [evalPresName, evalGInner, interGo, andnotGo, FilterResolved.is_andnot]
    decide

theorem exStoreConsistent : indexConsistent exStore exEntries := by
  intro attr itype t ht key
  by_cases ha : attr = "name"
  · subst ha
    cases itype with
    | SUBSTRING => simp [exStore] at ht
    | EQUALITY =>
      have htEq : tEqName = t := by simpa [exStore] using ht
      subst htEq
      by_cases h1 : key = "william"
      · subst h1; decide
      · by_cases h2 : key = "claire"
        · subst h2; decide
        · by_cases h3 : key = "bob"
          · subst h3; decide
          · simp [tEqName, h1, h2, h3, idsWithKey, exEntries, entW, entC, entB,
              nameContent]
    | PRESENCE =>
      have htEq : tPresName = t := by simpa [exStore] using ht
      subst htEq
      by_cases h1 : key = "_"
      · subst h1; decide
      · simp [tPresName, h1, idsWithKey, exEntries, entW, entC, entB, nameContent]
  · simp [exStore, ha] at ht

/-! ### Claim theorems -/

/-- C1: the claim asserts resolver soundness — on a store whose index tables
satisfy the index-consistency invariant, `Partial s` always bounds the set of
ids of matching entries from above.  The code violates it: on `exStore`
(consistent over `exEntries`) the filter
`And [Pres(name), AndNot (And [Eq(name,claire), Eq(name,bob)])]` resolves to
`Partial {1, 2}`, yet all three entries match the filter, so the match set
`{1, 2, 3}` is not contained in the returned candidate set — the `And`
branch subtracts a `Partial` (superset) sub-result with `andnot` and removes
a matching id. -/
theorem c1_partial_result_not_superset_of_matches :
    indexConsistent exStore exEntries ∧
    filter2idl exStore 2 exF = .ok (.Partial ({1, 2} : IdSet)) ∧
    matchIds exEntries exF = ({1, 2, 3} : IdSet) ∧
    ¬ matchIds exEntries exF ⊆ ({1, 2} : IdSet) :=
  ⟨exStoreConsistent, evalExF, by decide, by decide⟩

/-- C2: for every attribute, index kind and key (store operations always
succeed in this model): `get_idl` returns `none` exactly when the index table
for `(attr, kind)` does not exist; when the table exists but holds no row for
the key, `get_idl` returns `some ∅`, never `none`. -/
theorem c2_get_idl_none_iff_table_missing (st : Store) (attr : String)
    (itype : IndexType) (idx_key : String) :
    (get_idl st attr itype idx_key = none ↔ st.tables attr itype = none) ∧
    (∀ t, st.tables attr itype = some t → t idx_key = none →
      get_idl st attr itype idx_key = some (∅ : IdSet)) := by
  cases hst : st.tables attr itype with
  | none =>
    refine ⟨⟨fun _ => rfl, fun _ => ?_⟩, fun t ht _ => ?_⟩
    · simp [get_idl, exists_idx, hst]
    · cases ht
  | some tb =>
    refine ⟨⟨fun h => ?_, fun h => ?_⟩, fun t ht hrow => ?_⟩
    · simp [get_idl, exists_idx, hst] at h
    · cases h
    · injection ht with ht
      subst ht
      simp [get_idl, exists_idx, hst, hrow]

/-- C3: in the `And` branch, when the seeded candidate (the resolved last
positive child) is `Indexed s` or `Partial s` with `s.card < thres`,
`filter2idl` returns `Partial s` at once; when an intersection in the
positive loop produces `ia ∩ ib` with cardinality below `thres`, the loop
returns the `early (Partial (ia ∩ ib))` outcome — for every tail `rest`, so
the remaining children are never processed; and an `early r` outcome of the
loop is returned by `filter2idl` for the whole `And` unchanged (the
`AndNot` children are skipped too). -/
theorem c3_and_threshold_shortcut :
    (∀ (st : Store) (thres : Nat) (l : List FilterResolved) (g : FilterResolved)
        (s : IdSet),
      (l.filter (fun x => !x.is_andnot)).getLast? = some g →
      (filter2idl st thres g = .ok (.Indexed s) ∨
        filter2idl st thres g = .ok (.Partial s)) →
      s.card < thres →
      filter2idl st thres (.And l) = .ok (.Partial s)) ∧
    (∀ (st : Store) (thres : Nat) (ia ib : IdSet) (f : FilterResolved)
        (rest : List FilterResolved),
      (filter2idl st thres f = .ok (.Indexed ib) ∨
        filter2idl st thres f = .ok (.Partial ib)) →
      (ia ∩ ib).card < thres →
      interGo st thres (.Indexed ia) (f :: rest) = .ok (.early (.Partial (ia ∩ ib))) ∧
      interGo st thres (.Partial ia) (f :: rest) = .ok (.early (.Partial (ia ∩ ib)))) ∧
    (∀ (st : Store) (thres : Nat) (l : List FilterResolved) (g : FilterResolved)
        (cand : IDL) (r : IDL),
      (l.filter (fun x => !x.is_andnot)).getLast? = some g →
      filter2idl st thres g = .ok cand →
      (match cand with
        | .Indexed s => ¬ s.card < thres
        | .Partial s => ¬ s.card < thres
        | .ALLIDS => True) →
      interGo st thres cand ((l.filter (fun x => !x.is_andnot)).dropLast) =
        .ok (.early r) →
      filter2idl st thres (.And l) = .ok r) := by
  refine ⟨?_, ?_, ?_⟩
  · intro st thres l g s hlast hres hcard
    rw [filter2idl]
    split
    · next heq => rw [hlast] at heq; cases heq
    · next g' heq =>
      rw [hlast] at heq
      injection heq with heq
      subst heq
      rcases hres with h | h <;> rw [h] <;> simp [hcard]
  · intro st thres ia ib f rest hres hcard
    constructor <;> (rw [interGo]; rcases hres with h | h <;> rw [h] <;> simp [hcard])
  · intro st thres l g cand r hlast hseed hbig hloop
    rw [filter2idl]
    split
    · next heq => rw [hlast] at heq; cases heq
    · next g' heq =>
      rw [hlast] at heq
      injection heq with heq
      subst heq
      rw [hseed]
      cases cand with
      | Indexed s => simp only at hbig; simp [hbig, hloop]
      | Partial s => simp only at hbig; simp [hbig, hloop]
      | ALLIDS => simp [hloop]

/-- C4: a filter whose root is `AndNot` resolves to the exact empty result
`Indexed ∅`, and an `AndNot` child inside an `Or` contributes the empty set
to the running union — one loop step over it leaves the accumulator, the
partial flag and the final outcome unchanged (it never forces `Partial` or
`ALLIDS` by itself). -/
theorem c4_isolated_andnot_empty_exact :
    (∀ (st : Store) (thres : Nat) (f : FilterResolved),
      filter2idl st thres (.AndNot f) = .ok (.Indexed (∅ : IdSet))) ∧
    (∀ (st : Store) (thres : Nat) (acc : IdSet) (part : Bool) (f : FilterResolved)
        (rest : List FilterResolved),
      orGo st thres acc part (.AndNot f :: rest) = orGo st thres acc part rest) := by
  have h1 : ∀ (st : Store) (thres : Nat) (f : FilterResolved),
      filter2idl st thres (.AndNot f) = .ok (.Indexed (∅ : IdSet)) := by
    intro st thres f
    rw [filter2idl]
  refine ⟨h1, fun st thres acc part f rest => ?_⟩
  rw [orGo, h1]
  simp

/-! ### Success and preservation lemmas for the write plane -/

/-- The row stored for `(attr, itype, key)`, `none` when either the table or
the row is absent. -/
def rowOf (st : Store) (attr : String) (itype : IndexType) (key : String) :
    Option IdSet :=
  (st.tables attr itype).bind fun t => t key

theorem write_idl_ok_of_table {st : Store} {attr : String} {itype : IndexType}
    (idx_key : String) (idl : IdSet) {t : IdxTable}
    (ht : st.tables attr itype = some t) :
    ∃ st', write_idl st attr itype idx_key idl = .ok st' := by
  unfold write_idl
  rw [ht]
  by_cases hc : idl.card = 0 <;> simp [hc]

theorem table_of_get_idl_some {st : Store} {attr : String} {itype : IndexType}
    {k : String} {idl : IdSet} (h : get_idl st attr itype k = some idl) :
    ∃ t, st.tables attr itype = some t := by
  cases hst : st.tables attr itype with
  | none => rw [get_idl] at h; simp [exists_idx, hst] at h
  | some t => exact ⟨t, rfl⟩

theorem apply_idx_edit_isOk (st : Store) (e_id : Nat) (ed : IdxEdit) :
    ∃ st', apply_idx_edit st e_id ed = .ok st' := by
  cases ed with
  | add attr itype key =>
    cases hidl : get_idl st attr itype key with
    | none => exact ⟨st, by simp [apply_idx_edit, hidl]⟩
    | some idl =>
      obtain ⟨t, ht⟩ := table_of_get_idl_some hidl
      obtain ⟨st', hw⟩ := write_idl_ok_of_table key (insert e_id idl) ht
      exact ⟨st', by simp [apply_idx_edit, hidl, hw]⟩
  | remove attr itype key =>
    cases hidl : get_idl st attr itype key with
    | none => exact ⟨st, by simp [apply_idx_edit, hidl]⟩
    | some idl =>
      obtain ⟨t, ht⟩ := table_of_get_idl_some hidl
      obtain ⟨st', hw⟩ := write_idl_ok_of_table key (idl.erase e_id) ht
      exact ⟨st', by simp [apply_idx_edit, hidl, hw]⟩

theorem applyEdits_isOk (eds : List IdxEdit) :
    ∀ (st : Store) (e_id : Nat), ∃ st', applyEdits st e_id eds = .ok st' := by
  induction eds with
  | nil => exact fun st _ => ⟨st, rfl⟩
  | cons ed rest ih =>
    intro st e_id
    obtain ⟨st1, h1⟩ := apply_idx_edit_isOk st e_id ed
    obtain ⟨st2, h2⟩ := ih st1 e_id
    exact ⟨st2, by rw [applyEdits, h1]; exact h2⟩

theorem entry_index_isOk (idxDiff : IdxDiff) (idxmeta : IdxMeta) (st : Store)
    (pre post : Option Entry)
    (h1 : ¬(pre = none ∧ post = none))
    (h2 : ∀ p q, pre = some p → post = some q → p.id = q.id) :
    ∃ st', entry_index idxDiff idxmeta st pre post = .ok st' := by
  cases pre with
  | none =>
    cases post with
    | none => exact absurd ⟨rfl, rfl⟩ h1
    | some q =>
      obtain ⟨st', h⟩ := applyEdits_isOk (idxDiff idxmeta none (some q)) st q.id
      exact ⟨st', by simp [entry_index, h, liftE]⟩
  | some p =>
    cases post with
    | none =>
      obtain ⟨st', h⟩ := applyEdits_isOk (idxDiff idxmeta (some p) none) st p.id
      exact ⟨st', by simp [entry_index, h, liftE]⟩
    | some q =>
      have hid : p.id = q.id := h2 p q rfl rfl
      obtain ⟨st', h⟩ := applyEdits_isOk (idxDiff idxmeta (some p) (some q)) st q.id
      exact ⟨st', by simp [entry_index, hid, h, liftE]⟩

theorem beFold_isOk {α : Type} (f : Store → α → BEResult Store)
    (hf : ∀ s a, ∃ s', f s a = .ok s') :
    ∀ (l : List α) (st : Store), ∃ st', beFold f st l = .ok st' := by
  intro l
  induction l with
  | nil => exact fun st => ⟨st, rfl⟩
  | cons a rest ih =>
    intro st
    obtain ⟨s1, h1⟩ := hf st a
    obtain ⟨s2, h2⟩ := ih s1
    exact ⟨s2, by rw [beFold, h1]; exact h2⟩

theorem beFold_preserves {α : Type} (P : Store → Prop) (f : Store → α → BEResult Store)
    (hf : ∀ s a s', f s a = .ok s' → P s → P s') :
    ∀ (l : List α) (st st' : Store), beFold f st l = .ok st' → P st → P st' := by
  intro l
  induction l with
  | nil =>
    intro st st' h hp
    rw [beFold] at h
    injection h with h
    exact h ▸ hp
  | cons a rest ih =>
    intro st st' h hp
    rw [beFold] at h
    cases hstep : f st a with
    | panic => rw [hstep] at h; cases h
    | err e => rw [hstep] at h; cases h
    | ok s1 => rw [hstep] at h; exact ih s1 st' h (hf st a s1 hstep hp)

theorem write_idl_tables_isSome {st st' : Store} {attr : String} {itype : IndexType}
    {key : String} {idl : IdSet}
    (h : write_idl st attr itype key idl = .ok st') :
    ∀ a i, (st'.tables a i).isSome = (st.tables a i).isSome := by
  intro a i
  unfold write_idl at h
  cases hst : st.tables attr itype with
  | none => rw [hst] at h; cases h
  | some t =>
    rw [hst] at h
    by_cases hc : idl.card = 0 <;> simp [hc] at h <;>
    · subst h
      simp only [Store.setTable]
      by_cases hai : a = attr ∧ i = itype
      · obtain ⟨rfl, rfl⟩ := hai
        simp [hst]
      · simp [hai]

theorem apply_idx_edit_tables_isSome {st st' : Store} {e_id : Nat} {ed : IdxEdit}
    (h : apply_idx_edit st e_id ed = .ok st') :
    ∀ a i, (st'.tables a i).isSome = (st.tables a i).isSome := by
  cases ed with
  | add attr itype key =>
    rw [apply_idx_edit] at h
    cases hidl : get_idl st attr itype key with
    | none => rw [hidl] at h; injection h with h; exact h ▸ fun a i => rfl
    | some idl => rw [hidl] at h; exact write_idl_tables_isSome h
  | remove attr itype key =>
    rw [apply_idx_edit] at h
    cases hidl : get_idl st attr itype key with
    | none => rw [hidl] at h; injection h with h; exact h ▸ fun a i => rfl
    | some idl => rw [hidl] at h; exact write_idl_tables_isSome h

theorem applyEdits_tables_isSome (eds : List IdxEdit) :
    ∀ {st st' : Store} {e_id : Nat}, applyEdits st e_id eds = .ok st' →
      ∀ a i, (st'.tables a i).isSome = (st.tables a i).isSome := by
  induction eds with
  | nil =>
    intro st st' e_id h
    rw [applyEdits] at h
    injection h with h
    exact h ▸ fun a i => rfl
  | cons ed rest ih =>
    intro st st' e_id h
    rw [applyEdits] at h
    cases hstep : apply_idx_edit st e_id ed with
    | error e => rw [hstep] at h; cases h
    | ok s1 =>
      rw [hstep] at h
      intro a i
      rw [ih h a i, apply_idx_edit_tables_isSome hstep a i]

theorem liftE_ok {r : Except OperationError Store} {st' : Store}
    (h : liftE r = .ok st') : r = .ok st' := by
  cases r with
  | error e => cases h
  | ok s => injection h with h; rw [h]

theorem entry_index_tables_isSome {idxDiff : IdxDiff} {idxmeta : IdxMeta}
    {st st' : Store} {pre post : Option Entry}
    (h : entry_index idxDiff idxmeta st pre post = .ok st') :
    ∀ a i, (st'.tables a i).isSome = (st.tables a i).isSome := by
  cases pre with
  | none =>
    cases post with
    | none => cases h
    | some q => exact applyEdits_tables_isSome _ (liftE_ok h)
  | some p =>
    cases post with
    | none => exact applyEdits_tables_isSome _ (liftE_ok h)
    | some q =>
      rw [entry_index] at h
      by_cases hid : p.id = q.id
      · rw [if_pos hid] at h
        exact applyEdits_tables_isSome _ (liftE_ok h)
      · rw [if_neg hid] at h; cases h

/-- C5: when the target index table does not exist (`get_idl` reports
`none`), both the `ADD` and the `REMOVE` edit of the maintainer log a
warning and succeed leaving the store unchanged; consequently `entry_index`
never returns an error on any store for any edit list — the only non-`Ok`
outcomes of `entry_index` are the `(None, None)` invalid call and the
id-mismatch `assert!`. -/
theorem c5_missing_index_table_never_aborts :
    (∀ (st : Store) (e_id : Nat) (attr : String) (itype : IndexType)
        (idx_key : String),
      st.tables attr itype = none →
      apply_idx_edit st e_id (.add attr itype idx_key) = .ok st ∧
      apply_idx_edit st e_id (.remove attr itype idx_key) = .ok st) ∧
    (∀ (idxDiff : IdxDiff) (idxmeta : IdxMeta) (st : Store) (pre post : Option Entry),
      ¬(pre = none ∧ post = none) →
      (∀ p q, pre = some p → post = some q → p.id = q.id) →
      ∃ st', entry_index idxDiff idxmeta st pre post = .ok st') := by
  refine ⟨fun st e_id attr itype idx_key hmiss => ?_, entry_index_isOk⟩
  have hnone : get_idl st attr itype idx_key = none := by
    simp [get_idl, exists_idx, hmiss]
  exact ⟨by simp [apply_idx_edit, hnone], by simp [apply_idx_edit, hnone]⟩

/-- C6: `write_idl` on an existing table never persists an empty id set — an
empty set deletes the row for the key and a non-empty set upserts it, so
after the write the row is absent exactly when the set was empty, and
`get_idl` then reads the absent row back as `some ∅`. -/
theorem c6_empty_idl_stored_as_row_absence (st : Store) (attr : String)
    (itype : IndexType) (idx_key : String) (idl : IdSet) (t : IdxTable)
    (ht : st.tables attr itype = some t) :
    ∃ st', write_idl st attr itype idx_key idl = .ok st' ∧
      rowOf st' attr itype idx_key = (if idl = ∅ then none else some idl) ∧
      (idl = ∅ → get_idl st' attr itype idx_key = some (∅ : IdSet)) := by
  unfold write_idl
  rw [ht]
  by_cases hc : idl = ∅
  · refine ⟨st.setTable attr itype (some fun k => if k = idx_key then none else t k),
      ?_, ?_, fun _ => ?_⟩
    · simp [Finset.card_eq_zero, hc]
    · simp [rowOf, Store.setTable, hc]
    · simp [get_idl, exists_idx, Store.setTable]
  · have hcard : idl.card ≠ 0 := by simpa [Finset.card_eq_zero] using hc
    refine ⟨st.setTable attr itype (some fun k => if k = idx_key then some idl else t k),
      ?_, ?_, fun habs => absurd habs hc⟩
    · simp [hcard]
    · simp [rowOf, Store.setTable, hc]

/-- C6 witness: writing the empty set for the key `"william"` of the example
store's `(name, EQUALITY)` table succeeds, leaves no row behind, and a
subsequent `get_idl` reads `some ∅`. -/
theorem c6_empty_idl_stored_as_row_absence_witness :
    ∃ st', write_idl exStore "name" .EQUALITY "william" (∅ : IdSet) = .ok st' ∧
      rowOf st' "name" .EQUALITY "william" =
        (if (∅ : IdSet) = ∅ then none else some (∅ : IdSet)) ∧
      ((∅ : IdSet) = ∅ → get_idl st' "name" .EQUALITY "william" = some (∅ : IdSet)) :=
  c6_empty_idl_stored_as_row_absence exStore "name" .EQUALITY "william" ∅ tEqName rfl

/-- A trivial `idx_diff` collaborator producing no edits (the control-flow
claims do not depend on the edit list). -/
def exDiff0 : IdxDiff := fun _ _ _ => []

/-- C7 counterexample: `modify` with a non-empty pre list of one entry and a
non-empty post list of two entries crashes on
`assert!(post_entries.len() == pre_entries.len())`; it does not return the
`InvalidEntryState` error the claim promises. -/
theorem c7_length_mismatch_panics_counterexample :
    modify exDiff0 [] exStore [entW] [entW, entC] = .panic ∧
    modify exDiff0 [] exStore [entW] [entW, entC] ≠ .err .InvalidEntryState := by
  constructor
  · rfl
  · intro h
    rw [show modify exDiff0 [] exStore [entW] [entW, entC] = .panic from rfl] at h
    cases h

/-- C7 (amended): `modify` returns `EmptyRequest` when either the pre or the
post list is empty; when both are non-empty and their lengths differ it
crashes on an assertion (`panic`), not a fallible `InvalidEntryState`
outcome — the later `InvalidEntryState` length re-check compares
`post_entries` against its own image under `map` and is unreachable. -/
theorem c7_modify_empty_or_mismatched :
    (∀ (idxDiff : IdxDiff) (idxmeta : IdxMeta) (st : Store) (pre post : List Entry),
      (pre = [] ∨ post = []) →
      modify idxDiff idxmeta st pre post = .err .EmptyRequest) ∧
    (∀ (idxDiff : IdxDiff) (idxmeta : IdxMeta) (st : Store) (pre post : List Entry),
      pre ≠ [] → post ≠ [] → post.length ≠ pre.length →
      modify idxDiff idxmeta st pre post = .panic) := by
  constructor
  · rintro idxDiff idxmeta st pre post (rfl | rfl) <;> simp [modify]
  · intro idxDiff idxmeta st pre post hpre hpost hlen
    cases pre with
    | nil => exact absurd rfl hpre
    | cons p ps =>
      cases post with
      | nil => exact absurd rfl hpost
      | cons q qs =>
        unfold modify
        rw [if_neg (by simp), if_neg hlen]

/-! ### Reindex lemmas -/

theorem create_idx_tables_isSome (st : Store) (attr : String) (itype : IndexType)
    (a : String) (i : IndexType) :
    ((create_idx st attr itype).tables a i).isSome = true ↔
      ((a = attr ∧ i = itype) ∨ (st.tables a i).isSome = true) := by
  unfold create_idx
  cases hst : st.tables attr itype with
  | some t =>
    by_cases hai : a = attr ∧ i = itype
    · obtain ⟨rfl, rfl⟩ := hai
      simp [hst]
    · simp [hai]
  | none =>
    by_cases hai : a = attr ∧ i = itype
    · obtain ⟨rfl, rfl⟩ := hai
      simp [Store.setTable]
    · simp [Store.setTable, hai]

theorem create_idxs_tables_isSome (idxmeta : IdxMeta) :
    ∀ (st : Store) (a : String) (i : IndexType),
      ((create_idxs idxmeta st).tables a i).isSome = true ↔
        ((a, i) ∈ idxmeta ∨ (st.tables a i).isSome = true) := by
  induction idxmeta with
  | nil => intro st a i; simp [create_idxs]
  | cons p rest ih =>
    intro st a i
    rw [create_idxs, ih, create_idx_tables_isSome]
    constructor
    · rintro (h | (⟨rfl, rfl⟩ | h))
      · exact Or.inl (List.mem_cons_of_mem _ h)
      · exact Or.inl (List.mem_cons_self _ _)
      · exact Or.inr h
    · rintro (h | h)
      · rcases List.mem_cons.mp h with rfl | h
        · exact Or.inr (Or.inl ⟨rfl, rfl⟩)
        · exact Or.inl h
      · exact Or.inr (Or.inr h)

/-- C8: `reindex` is, definitionally, purge-all followed by recreating the
declared tables followed by invoking the maintainer with `(None, Some e)`
over every entry of the entry table; a successful `reindex` leaves exactly
the tables of the index metadata in existence; and when the stored index
version is stale, a successful `upgrade_reindex` is exactly a successful
`reindex` followed by writing the new index-schema version, which is then
the stored version. -/
theorem c8_reindex_rebuilds_declared_tables :
    (∀ (idxDiff : IdxDiff) (idxmeta : IdxMeta) (st : Store),
      reindex idxDiff idxmeta st =
        beFold (fun s e => entry_index idxDiff idxmeta s none (some e))
          (create_idxs idxmeta (purge_idxs st))
          (entriesOf (create_idxs idxmeta (purge_idxs st)))) ∧
    (∀ (idxDiff : IdxDiff) (idxmeta : IdxMeta) (st st' : Store),
      reindex idxDiff idxmeta st = .ok st' →
      ∀ (a : String) (i : IndexType),
        (st'.tables a i).isSome = true ↔ (a, i) ∈ idxmeta) ∧
    (∀ (idxDiff : IdxDiff) (idxmeta : IdxMeta) (st : Store) (v : Int),
      get_db_index_version st < v →
      ∀ st', upgrade_reindex idxDiff idxmeta st v = .ok st' →
        get_db_index_version st' = v ∧
        ∃ stR, reindex idxDiff idxmeta st = .ok stR ∧
          st' = set_db_index_version stR v) := by
  refine ⟨fun _ _ _ => rfl, ?_, ?_⟩
  · intro idxDiff idxmeta st st' h a i
    have hpres := beFold_preserves
      (fun s => ∀ a' i', (s.tables a' i').isSome =
        ((create_idxs idxmeta (purge_idxs st)).tables a' i').isSome)
      (fun s e => entry_index idxDiff idxmeta s none (some e))
      (fun s e s' hstep hp a' i' => by
        rw [entry_index_tables_isSome hstep a' i', hp a' i'])
      (entriesOf (create_idxs idxmeta (purge_idxs st)))
      (create_idxs idxmeta (purge_idxs st)) st' h (fun _ _ => rfl)
    rw [hpres a i, create_idxs_tables_isSome]
    simp [purge_idxs]
  · intro idxDiff idxmeta st v hv st' h
    rw [upgrade_reindex, if_pos hv] at h
    cases hr : reindex idxDiff idxmeta st with
    | panic => rw [hr] at h; cases h
    | err e => rw [hr] at h; cases h
    | ok stR =>
      rw [hr] at h
      injection h with h
      subst h
      exact ⟨by simp [get_db_index_version, set_db_index_version,
        get_db_version_key, set_db_version_key], stR, rfl, rfl⟩

theorem reindex_isOk (idxDiff : IdxDiff) (idxmeta : IdxMeta) (st : Store) :
    ∃ st', reindex idxDiff idxmeta st = .ok st' := by
  apply beFold_isOk
  intro s e
  exact entry_index_isOk idxDiff idxmeta s none (some e)
    (fun hc => by cases hc.2) (fun p q hp _ => by cases hp)

/-- C9: `verify` returns the empty error list on every store, and therefore
`restore` — whose final step raises `ConsistencyError` only when `verify`
returns a non-empty list — can never produce the `ConsistencyError`
outcome. -/
theorem c9_restore_never_consistency_error :
    (∀ st : Store, verify st = []) ∧
    (∀ (idxDiff : IdxDiff) (idxmeta : IdxMeta) (st : Store)
        (dbentries : List EntryData),
      (restore idxDiff idxmeta st dbentries).isConsistencyErr = false) := by
  refine ⟨fun _ => rfl, fun idxDiff idxmeta st dbentries => ?_⟩
  unfold restore
  obtain ⟨st', hok⟩ := reindex_isOk idxDiff idxmeta
    (write_identries (purge_id2entry st) (dbentries.enum.map (fun p => (p.1 + 1, p.2))))
  dsimp only
  rw [hok]
  simp [verify, BEResult.isConsistencyErr]

theorem id_list_ok (entries : List Entry)
    (h : ∀ e ∈ entries, 0 < e.id ∧ e.id < i64Max) :
    ∃ ids, id_list entries = .ok ids ∧ ids.length = entries.length := by
  induction entries with
  | nil => exact ⟨[], rfl, rfl⟩
  | cons e rest ih =>
    obtain ⟨h1, h2⟩ := h e (List.mem_cons_self _ _)
    obtain ⟨ids, hids, hlen⟩ := ih (fun x hx => h x (List.mem_cons_of_mem _ hx))
    refine ⟨e.id :: ids, ?_, by simp [hlen]⟩
    rw [id_list, if_pos h2, if_neg (Nat.pos_iff_ne_zero.mp h1), hids]

/-- C10: `delete` on a non-empty list of entries whose ids are positive and
within the signed 64-bit range succeeds on *every* store — in particular on
stores where some or all of those ids have no row in the entry table:
`delete_identry` is a silent no-op on absent ids and the maintainer calls
`(Some e, None)` never fail. -/
theorem c10_delete_succeeds_on_absent_ids (idxDiff : IdxDiff) (idxmeta : IdxMeta)
    (st : Store) (entries : List Entry)
    (hne : entries ≠ [])
    (hid : ∀ e ∈ entries, 0 < e.id ∧ e.id < i64Max) :
    ∃ st', delete idxDiff idxmeta st entries = .ok st' := by
  obtain ⟨ids, hids, hlen⟩ := id_list_ok entries hid
  obtain ⟨st', hok⟩ := beFold_isOk
    (fun s e => entry_index idxDiff idxmeta s (some e) none)
    (fun s e => entry_index_isOk idxDiff idxmeta s (some e) none
      (fun hc => by cases hc.1) (fun p q _ hq => by cases hq))
    entries (delete_identry st ids)
  refine ⟨st', ?_⟩
  have hemp : entries.isEmpty = false := by
    cases entries with
    | nil => exact absurd rfl hne
    | cons a rest => rfl
  unfold delete
  rw [if_neg (by simp [hemp]), hids]
  dsimp only
  rw [if_neg (fun hcon => hcon hlen.symm)]
  exact hok

/-- The empty store: no entry rows, no index tables. -/
def exEmptyStore : Store where
  id2entry := []
  tables := fun _ _ => none
  db_version := fun _ => none

/-- C10 witness: deleting the entry with id 1 from the empty store — whose
entry table has no row at all — succeeds. -/
theorem c10_delete_succeeds_on_absent_ids_witness :
    ∃ st', delete exDiff0 [] exEmptyStore [entW] = .ok st' :=
  c10_delete_succeeds_on_absent_ids exDiff0 [] exEmptyStore [entW]
    (by simp)
    (by
      intro e he
      rw [List.mem_singleton] at he
      subst he
      exact ⟨by decide, by decide⟩)

end KanidmBE
